import Mathlib

/-!
Verification of configuration-level claims about the devcontainer-nextjs
template repository.  The repository's executable content is two
configuration objects: the Jest test-runner configuration
(`src/jest.config.ts`) and the flat ESLint configuration.  Both are
transcribed here together with executable models of the third-party
pattern semantics they rely on (micromatch-style globs for `testMatch`
and ESLint `ignores`, JavaScript regular expressions for `transform`
keys, `moduleNameMapper` and `testPathIgnorePatterns`).
-/

/-- The shape of the custom Jest configuration object defined in
`src/jest.config.ts`.  Map-valued fields are association lists in
source order. -/
structure JestConfig where
  testEnvironment : String
  setupFilesAfterEnv : List String
  moduleNameMapper : List (String × String)
  transform : List (String × String)
  testPathIgnorePatterns : List String
  testMatch : List String

/-- Transcription of `customJestConfig` from `src/jest.config.ts`
(the object passed to `createJestConfig`).  Brace characters inside
glob patterns are written with their escapes `\x7b`/`\x7d`. -/
def customJestConfig : JestConfig :=
  { testEnvironment := "jest-environment-jsdom"
  , setupFilesAfterEnv := ["<rootDir>/jest.setup.ts"]
  , moduleNameMapper := [("^@/(.*)$", "<rootDir>/src/$1")]
  , transform := [("^.+\\.(ts|tsx)$", "ts-jest")]
  , testPathIgnorePatterns :=
      [ "<rootDir>/.next/"
      , "<rootDir>/node_modules/"
      , "<rootDir>/tests/" ]
  , testMatch :=
      [ "<rootDir>/src/**/__tests__/**/*.\x7bjs,jsx,ts,tsx\x7d"
      , "<rootDir>/src/**/*.\x7bspec,test\x7d.\x7bjs,jsx,ts,tsx\x7d" ] }

/-! ## Glob pattern semantics (micromatch-style, as used by Jest
`testMatch` and ESLint flat-config `ignores`)

A glob pattern is first brace-expanded (`a{b,c}d` becomes `abd`, `acd`),
then tokenized (`**/`, `**`, `*`, `?`, literal characters) and matched
against a path.  `*` and `?` do not cross `/`; `**` may. -/

/-- Take characters of a brace group body up to the closing `\x7d`;
returns the body and the remainder of the pattern. -/
def takeUntilClose : List Char → List Char × List Char
  | [] => ([], [])
  | c :: cs =>
    if c = '}' then ([], cs)
    else
      let p := takeUntilClose cs
      (c :: p.1, p.2)

theorem takeUntilClose_snd_length (cs : List Char) :
    (takeUntilClose cs).2.length ≤ cs.length := by
  induction cs with
  | nil => simp [takeUntilClose]
  | cons c cs ih =>
    simp only [takeUntilClose]
    split
    · simp
    · simpa using Nat.le_succ_of_le ih

/-- Split a brace group body on commas into its alternatives. -/
def splitComma : List Char → List (List Char)
  | [] => [[]]
  | c :: cs =>
    if c = ',' then [] :: splitComma cs
    else
      match splitComma cs with
      | [] => [[c]]
      | g :: gs => (c :: g) :: gs

/-- Brace expansion of a glob pattern, driven by a fuel parameter so
that the recursion is structural (the remainder after a brace group is
not a sublist of the input).  `takeUntilClose_snd_length` shows the
pattern length is always enough fuel. -/
def expandBracesAux : Nat → List Char → List (List Char)
  | 0, _ => [[]]
  | _ + 1, [] => [[]]
  | fuel + 1, c :: cs =>
    if c = '{' then
      ((splitComma (takeUntilClose cs).1).map
        (fun alt =>
          (expandBracesAux fuel (takeUntilClose cs).2).map
            (fun r => alt ++ r))).flatten
    else (expandBracesAux fuel cs).map (fun r => c :: r)

/-- Brace expansion of a glob pattern (non-nested groups, as in the
patterns of this repository): each `\x7b..,..\x7d` group multiplies out
into one pattern per alternative. -/
def expandBraces (l : List Char) : List (List Char) :=
  expandBracesAux l.length l

/-- Glob tokens: a literal character, `*` (any run of non-separator
characters), `?` (one non-separator character), `**/` (any run of
leading path segments, including none), and `**`. -/
inductive GTok
  | lit (c : Char)
  | star
  | qmark
  | globstarSlash
  | globstar

/-- Tokenize a brace-free glob pattern. -/
def tokenize : List Char → List GTok
  | [] => []
  | '*' :: '*' :: '/' :: r => .globstarSlash :: tokenize r
  | '*' :: '*' :: r => .globstar :: tokenize r
  | '*' :: r => .star :: tokenize r
  | '?' :: r => .qmark :: tokenize r
  | c :: r => .lit c :: tokenize r

/-- Try `f` on every suffix obtained by dropping non-separator
characters (zero or more) from the front: the semantics of `*`. -/
def starSkip (f : List Char → Bool) : List Char → Bool
  | [] => f []
  | c :: s => f (c :: s) || (!(c == '/') && starSkip f s)

/-- Try `f` on every suffix (dropping zero or more arbitrary
characters from the front): the semantics of `**`. -/
def anySkip (f : List Char → Bool) : List Char → Bool
  | [] => f []
  | c :: s => f (c :: s) || anySkip f s

/-- Match a tokenized glob pattern against a path.  `star` consumes any
characters other than `/`; `globstarSlash` and `globstar` consume
arbitrary characters (so `**` crosses directory separators); matching
is anchored at both ends. -/
def tmatch : List GTok → List Char → Bool
  | [], s => s.isEmpty
  | .lit c :: ps, s =>
    match s with
    | [] => false
    | c' :: s' => c == c' && tmatch ps s'
  | .qmark :: ps, s =>
    match s with
    | [] => false
    | c' :: s' => !(c' == '/') && tmatch ps s'
  | .star :: ps, s => starSkip (tmatch ps) s
  | .globstarSlash :: ps, s => anySkip (tmatch ps) s
  | .globstar :: ps, s => anySkip (tmatch ps) s

/-- A glob pattern (with braces) matches a path when some brace
expansion of it matches. -/
def globMatch (pat : String) (path : List Char) : Bool :=
  (expandBraces pat.toList).any fun q => tmatch (tokenize q) path

/-- A path is selected by the Jest `testMatch` configuration when some
`testMatch` glob matches it. -/
def jestTestMatches (path : List Char) : Bool :=
  customJestConfig.testMatch.any fun pat => globMatch pat path

/-- The literal characters a token list starts with (before its first
wildcard token). -/
def leadLits : List GTok → List Char
  | [] => []
  | .lit c :: ts => c :: leadLits ts
  | .star :: _ => []
  | .qmark :: _ => []
  | .globstarSlash :: _ => []
  | .globstar :: _ => []

/-- Glob matching is anchored on the left: a matched path starts with
the pattern's leading literal characters. -/
theorem tmatch_leadLits : ∀ (ts : List GTok) (s : List Char),
    tmatch ts s = true → leadLits ts <+: s
  | [], s, _ => ⟨s, rfl⟩
  | .lit c :: ts, s, h => by
    cases s with
    | nil => simp [tmatch] at h
    | cons c' s' =>
      simp only [tmatch, Bool.and_eq_true, beq_iff_eq] at h
      obtain ⟨rfl, h2⟩ := h
      obtain ⟨t, ht⟩ := tmatch_leadLits ts s' h2
      exact ⟨t, by simp [leadLits, List.cons_append, ht]⟩
  | .star :: ts, s, _ => ⟨s, rfl⟩
  | .qmark :: ts, s, _ => ⟨s, rfl⟩
  | .globstarSlash :: ts, s, _ => ⟨s, rfl⟩
  | .globstar :: ts, s, _ => ⟨s, rfl⟩

/-- Every brace expansion of every `testMatch` pattern starts with the
literal characters `<rootDir>/src/`. -/
theorem testMatch_expansions_src :
    customJestConfig.testMatch.all
      (fun pat => (expandBraces pat.toList).all
        (fun q => decide ("<rootDir>/src/".toList <+: leadLits (tokenize q)))) = true := by
  decide

/-- Any path selected by the `testMatch` configuration lies under
`<rootDir>/src/`. -/
theorem jestTestMatches_src (path : List Char)
    (h : jestTestMatches path = true) :
    "<rootDir>/src/".toList <+: path := by
  rw [jestTestMatches, List.any_eq_true] at h
  obtain ⟨pat, hpat, hmatch⟩ := h
  rw [globMatch, List.any_eq_true] at hmatch
  obtain ⟨q, hq, hm⟩ := hmatch
  have h1 := List.all_eq_true.mp testMatch_expansions_src pat hpat
  have h2 := List.all_eq_true.mp h1 q hq
  exact (of_decide_eq_true h2).trans (tmatch_leadLits _ _ hm)

/-! ## Jest `testPathIgnorePatterns` semantics

Jest treats `testPathIgnorePatterns` entries as JavaScript regular
expressions and skips a test path when the regex matches *somewhere*
in the path (unanchored `RegExp.test`).  The three patterns of this
configuration contain no regex metacharacter other than `.` (which
matches any character except a line terminator), so their semantics is
pointwise matching of some substring of the path. -/

/-- JavaScript line terminators, which `.` in a regular expression
does not match. -/
def isLineTerminator (c : Char) : Bool :=
  c == '\n' || c == '\r' || c == Char.ofNat 0x2028 || c == Char.ofNat 0x2029

/-- Pointwise match of a dot-and-literals regex against a string of
the same length: `.` accepts any non-line-terminator character, every
other pattern character only itself. -/
def pointMatch : List Char → List Char → Bool
  | [], [] => true
  | [], _ :: _ => false
  | _ :: _, [] => false
  | p :: ps, c :: cs =>
    (if p = '.' then !(isLineTerminator c) else p == c) && pointMatch ps cs

/-- A `testPathIgnorePatterns` entry matches a path when its
dot-and-literals regex matches some substring of the path. -/
def ignoreMatches (pat : String) (path : List Char) : Prop :=
  ∃ pre mid post, path = pre ++ mid ++ post ∧ pointMatch pat.toList mid = true

theorem pointMatch_nil_eq {m : List Char} (h : pointMatch [] m = true) :
    m = [] := by
  cases m with
  | nil => rfl
  | cons c cs => simp [pointMatch] at h

/-- A pointwise match of a concatenated pattern splits the string. -/
theorem pointMatch_append_split : ∀ (a b m : List Char),
    pointMatch (a ++ b) m = true →
    ∃ m₁ m₂, m = m₁ ++ m₂ ∧ pointMatch a m₁ = true ∧ pointMatch b m₂ = true
  | [], b, m, h => ⟨[], m, rfl, rfl, h⟩
  | p :: a, b, [], h => by simp [pointMatch] at h
  | p :: a, b, c :: m, h => by
    simp only [List.cons_append, pointMatch, Bool.and_eq_true] at h
    obtain ⟨m₁, m₂, rfl, h1, h2⟩ := pointMatch_append_split a b m h.2
    exact ⟨c :: m₁, m₂, rfl, by simp [pointMatch, h.1, h1], h2⟩

/-- A dot-free pattern pointwise matches only itself. -/
theorem pointMatch_dotFree : ∀ (a m : List Char),
    '.' ∉ a → pointMatch a m = true → m = a
  | [], m, _, h => pointMatch_nil_eq h
  | p :: a, [], _, h => by simp [pointMatch] at h
  | p :: a, c :: m, hdot, h => by
    simp only [pointMatch, Bool.and_eq_true] at h
    have hp : p ≠ '.' := fun hc => hdot (hc ▸ List.mem_cons_self p a)
    rw [if_neg hp] at h
    have hm := pointMatch_dotFree a m (fun hc => hdot (List.mem_cons_of_mem p hc)) h.2
    have hc : p = c := by
      have := h.1
      exact eq_of_beq this
    rw [hm, hc]

/-- Does the haystack start with the needle? -/
def leadsWith : List Char → List Char → Bool
  | [], _ => true
  | _ :: _, [] => false
  | a :: as, b :: bs => a == b && leadsWith as bs

/-- Does the needle occur as a contiguous substring of the haystack? -/
def containsSub (needle : List Char) : List Char → Bool
  | [] => leadsWith needle []
  | c :: t => leadsWith needle (c :: t) || containsSub needle t

theorem leadsWith_append : ∀ (a t : List Char), leadsWith a (a ++ t) = true
  | [], _ => rfl
  | c :: a, t => by simp [leadsWith, leadsWith_append a t]

theorem containsSub_of_leadsWith {n h : List Char}
    (hl : leadsWith n h = true) : containsSub n h = true := by
  cases h with
  | nil => exact hl
  | cons c t => simp [containsSub, hl]

/-- Any explicit occurrence of the needle makes `containsSub` true. -/
theorem containsSub_intro (n : List Char) : ∀ (pre post : List Char),
    containsSub n (pre ++ n ++ post) = true
  | [], post => containsSub_of_leadsWith (leadsWith_append n post)
  | c :: pre, post => by
    show (leadsWith n (c :: (pre ++ n ++ post)) ||
      containsSub n (pre ++ n ++ post)) = true
    rw [containsSub_intro n pre post, Bool.or_true]

/-- Under paths whose only occurrence of `<rootDir>/` is the leading
one, a path selected by `testMatch` is matched by none of the
`testPathIgnorePatterns` regexes. -/
theorem testMatch_ignore_disjoint (path : List Char)
    (hm : jestTestMatches path = true)
    (hfree : containsSub "<rootDir>/".toList path.tail = false) :
    ∀ pat ∈ customJestConfig.testPathIgnorePatterns, ¬ ignoreMatches pat path := by
  intro pat hpat
  have hlist : customJestConfig.testPathIgnorePatterns =
      ["<rootDir>/.next/", "<rootDir>/node_modules/", "<rootDir>/tests/"] := rfl
  rw [hlist] at hpat
  obtain ⟨q, hq⟩ := jestTestMatches_src path hm
  simp only [List.mem_cons, List.not_mem_nil, or_false] at hpat
  rcases hpat with rfl | rfl | rfl
  · rintro ⟨pre, mid, post, hpath, hpm⟩
    rw [(show ("<rootDir>/.next/").toList =
      "<rootDir>/".toList ++ ('.' :: "next/".toList) from rfl)] at hpm
    obtain ⟨m₁, m₂, rfl, hm1, hm2⟩ := pointMatch_append_split _ _ _ hpm
    have hroot : m₁ = "<rootDir>/".toList :=
      pointMatch_dotFree _ _ (by decide) hm1
    subst hroot
    cases pre with
    | cons c pre' =>
      have htail : path.tail =
          pre' ++ "<rootDir>/".toList ++ (m₂ ++ post) := by
        rw [hpath]; simp
      rw [htail, containsSub_intro] at hfree
      exact absurd hfree (by simp)
    | nil =>
      cases m₂ with
      | nil => simp [pointMatch] at hm2
      | cons c m₂' =>
        simp only [pointMatch, if_pos rfl, Bool.and_eq_true] at hm2
        have hnext : m₂' = "next/".toList :=
          pointMatch_dotFree _ _ (by decide) hm2.2
        subst hnext
        have heq : "src/".toList ++ q = (c :: "next/".toList) ++ post := by
          have h1 : path = "<rootDir>/".toList ++ ((c :: "next/".toList) ++ post) := by
            rw [hpath]; simp
          have h2 : path = "<rootDir>/".toList ++ ("src/".toList ++ q) := by
            rw [← hq]; rfl
          exact List.append_cancel_left (h2 ▸ h1)
        rw [(show "src/".toList ++ q = 's' :: ("rc/".toList ++ q) from rfl),
          (show (c :: "next/".toList) ++ post =
            c :: ('n' :: ("ext/".toList ++ post)) from rfl)] at heq
        injection heq with hc hrest
        injection hrest with hn
        exact absurd hn (by decide)
  · rintro ⟨pre, mid, post, hpath, hpm⟩
    rw [(show ("<rootDir>/node_modules/").toList =
      "<rootDir>/".toList ++ "node_modules/".toList from rfl)] at hpm
    obtain ⟨m₁, m₂, rfl, hm1, hm2⟩ := pointMatch_append_split _ _ _ hpm
    have hroot : m₁ = "<rootDir>/".toList :=
      pointMatch_dotFree _ _ (by decide) hm1
    subst hroot
    cases pre with
    | cons c pre' =>
      have htail : path.tail =
          pre' ++ "<rootDir>/".toList ++ (m₂ ++ post) := by
        rw [hpath]; simp
      rw [htail, containsSub_intro] at hfree
      exact absurd hfree (by simp)
    | nil =>
      have hmod : m₂ = "node_modules/".toList :=
        pointMatch_dotFree _ _ (by decide) hm2
      subst hmod
      have heq : "src/".toList ++ q = "node_modules/".toList ++ post := by
        have h1 : path =
            "<rootDir>/".toList ++ ("node_modules/".toList ++ post) := by
          rw [hpath]; simp
        have h2 : path = "<rootDir>/".toList ++ ("src/".toList ++ q) := by
          rw [← hq]; rfl
        exact List.append_cancel_left (h2 ▸ h1)
      rw [(show "src/".toList ++ q = 's' :: ("rc/".toList ++ q) from rfl),
        (show "node_modules/".toList ++ post =
          'n' :: ("ode_modules/".toList ++ post) from rfl)] at heq
      injection heq with hc
      exact absurd hc (by decide)
  · rintro ⟨pre, mid, post, hpath, hpm⟩
    rw [(show ("<rootDir>/tests/").toList =
      "<rootDir>/".toList ++ "tests/".toList from rfl)] at hpm
    obtain ⟨m₁, m₂, rfl, hm1, hm2⟩ := pointMatch_append_split _ _ _ hpm
    have hroot : m₁ = "<rootDir>/".toList :=
      pointMatch_dotFree _ _ (by decide) hm1
    subst hroot
    cases pre with
    | cons c pre' =>
      have htail : path.tail =
          pre' ++ "<rootDir>/".toList ++ (m₂ ++ post) := by
        rw [hpath]; simp
      rw [htail, containsSub_intro] at hfree
      exact absurd hfree (by simp)
    | nil =>
      have hts : m₂ = "tests/".toList :=
        pointMatch_dotFree _ _ (by decide) hm2
      subst hts
      have heq : "src/".toList ++ q = "tests/".toList ++ post := by
        have h1 : path = "<rootDir>/".toList ++ ("tests/".toList ++ post) := by
          rw [hpath]; simp
        have h2 : path = "<rootDir>/".toList ++ ("src/".toList ++ q) := by
          rw [← hq]; rfl
        exact List.append_cancel_left (h2 ▸ h1)
      rw [(show "src/".toList ++ q = 's' :: ("rc/".toList ++ q) from rfl),
        (show "tests/".toList ++ post =
          't' :: ("ests/".toList ++ post) from rfl)] at heq
      injection heq with hc
      exact absurd hc (by decide)

/-! ## Composition lemmas for glob matching -/

/-- Literal glob tokens for a character list. -/
def litToks (l : List Char) : List GTok := l.map .lit

theorem tmatch_litToks_append : ∀ (l : List Char) (ps : List GTok) (s : List Char),
    tmatch ps s = true → tmatch (litToks l ++ ps) (l ++ s) = true
  | [], _, _, h => h
  | c :: l, ps, s, h => by
    show tmatch (.lit c :: (litToks l ++ ps)) (c :: (l ++ s)) = true
    simp [tmatch, tmatch_litToks_append l ps s h]

theorem tmatch_litToks_self (l : List Char) : tmatch (litToks l) l = true := by
  have h := tmatch_litToks_append l [] [] rfl
  simpa using h

/-- `anySkip` can skip any leading characters. -/
theorem anySkip_skip : ∀ (a : List Char) (f : List Char → Bool) (s : List Char),
    f s = true → anySkip f (a ++ s) = true
  | [], f, s, h => by
    cases s with
    | nil => exact h
    | cons c s' => simp [anySkip, h]
  | c :: a, f, s, h => by simp [anySkip, anySkip_skip a f s h]

/-- `starSkip` can skip any leading non-separator characters. -/
theorem starSkip_skip : ∀ (b : List Char) (f : List Char → Bool) (s : List Char),
    (∀ c ∈ b, c ≠ '/') → f s = true → starSkip f (b ++ s) = true
  | [], f, s, _, h => by
    cases s with
    | nil => exact h
    | cons c s' => simp [starSkip, h]
  | c :: b, f, s, hb, h => by
    have hc : ¬c = '/' := hb c (List.mem_cons_self c b)
    have ih := starSkip_skip b f s (fun x hx => hb x (List.mem_cons_of_mem c hx)) h
    simp [starSkip, hc, ih]

/-- A trailing `**` matches any remainder of the path. -/
theorem tmatch_globstar_end (s : List Char) : tmatch [.globstar] s = true := by
  have h := anySkip_skip s (tmatch []) [] rfl
  rw [List.append_nil] at h
  exact h

/-- Every string splits as slash-free, or as everything up to its last
slash followed by a slash-free tail. -/
theorem splitSlash : ∀ (s : List Char),
    (∀ c ∈ s, c ≠ '/') ∨ ∃ a b, s = a ++ '/' :: b ∧ ∀ c ∈ b, c ≠ '/'
  | [] => Or.inl (by simp)
  | c :: s => by
    rcases splitSlash s with h | ⟨a, b, rfl, hb⟩
    · by_cases hc : c = '/'
      · exact Or.inr ⟨[], s, by simp [hc], h⟩
      · refine Or.inl ?_
        intro x hx
        rcases List.mem_cons.mp hx with rfl | hx
        · exact hc
        · exact h x hx
    · exact Or.inr ⟨c :: a, b, by simp, hb⟩

/-- A glob of the shape `**/*<ext>` matches every path ending in the
extension `<ext>` (for a separator-free `<ext>`, here always a literal
suffix such as `.config.js`). -/
theorem glob_ext_match (s ext : List Char) :
    tmatch (.globstarSlash :: .star :: litToks ext) (s ++ ext) = true := by
  have hext : tmatch (litToks ext) ext = true := tmatch_litToks_self ext
  rcases splitSlash s with h | ⟨a, b, rfl, hb⟩
  · have hst : starSkip (tmatch (litToks ext)) (s ++ ext) = true :=
      starSkip_skip s _ ext h hext
    have h0 := anySkip_skip [] (tmatch (.star :: litToks ext)) (s ++ ext) hst
    simpa using h0
  · have hst : starSkip (tmatch (litToks ext)) (b ++ ext) = true :=
      starSkip_skip b _ ext hb hext
    have h0 := anySkip_skip (a ++ ['/']) (tmatch (.star :: litToks ext)) (b ++ ext) hst
    have he : (a ++ ['/']) ++ (b ++ ext) = (a ++ '/' :: b) ++ ext := by simp
    rw [he] at h0
    exact h0

/-- A glob of the shape `**/<seg>**` matches every path containing
the literal characters `<seg>` (here always a directory segment such
as `tests/`). -/
theorem glob_segment_match (a seg b : List Char) :
    tmatch (.globstarSlash :: (litToks seg ++ [.globstar])) (a ++ (seg ++ b)) = true := by
  have h1 : tmatch [.globstar] b = true := tmatch_globstar_end b
  have h2 : tmatch (litToks seg ++ [.globstar]) (seg ++ b) = true :=
    tmatch_litToks_append seg _ b h1
  exact anySkip_skip a (tmatch (litToks seg ++ [.globstar])) (seg ++ b) h2

/-- Matching a brace-free glob pattern reduces to `tmatch` on its
token list. -/
theorem globMatch_of_tmatch (pat : String) (toks : List GTok)
    (h1 : expandBraces pat.toList = [pat.toList])
    (h2 : tokenize pat.toList = toks)
    (path : List Char) (hm : tmatch toks path = true) :
    globMatch pat path = true := by
  rw [globMatch, h1]
  simp only [List.any_cons, List.any_nil, Bool.or_false]
  rw [h2]
  exact hm

/-! ## ESLint flat configuration (eslint.config.mjs)

The exported config is `typescript.config(js.configs.recommended,
...typescript.configs.recommended, <plugins block>, <files/rules
block>, <ignores block>)`.  Its data is transcribed below: the base
recommended rule-set sources, the plugins map, the rules map with its
option values, and the ignores list. -/

/-- JSON-like configuration values as they appear in the ESLint rules
map: severity strings, numbers, booleans, arrays and option objects. -/
inductive ConfigVal
  | str (s : String)
  | num (n : Int)
  | bool (b : Bool)
  | arr (vs : List ConfigVal)
  | obj (fs : List (String × ConfigVal))

/-- The two base recommended rule-set sources composed at the head of
`typescript.config(...)`: `js.configs.recommended` and the spread of
`typescript.configs.recommended`. -/
def eslintBaseConfigs : List String :=
  [ "js.configs.recommended", "typescript.configs.recommended" ]

/-- The `plugins` map of the ESLint configuration's plugin block, in
source order: six plugin entries. -/
def eslintPlugins : List (String × String) :=
  [ ("react", "eslint-plugin-react")
  , ("react-hooks", "eslint-plugin-react-hooks")
  , ("jsx-a11y", "eslint-plugin-jsx-a11y")
  , ("import", "eslint-plugin-import")
  , ("@next/next", "@next/eslint-plugin-next")
  , ("prettier", "eslint-plugin-prettier") ]

/-- The number of distinct rule-set sources composed into the exported
ESLint config: the base recommended configs plus each entry of the
plugins map. -/
def ruleSetSourceCount : Nat :=
  eslintBaseConfigs.length + eslintPlugins.length

/-- The `files` list of the main configuration block. -/
def eslintFiles : List String := ["**/*.\x7bjs,jsx,ts,tsx,mjs\x7d"]

/-- The `rules` map of the main configuration block, transcribed in
source order with all option values. -/
def eslintRules : List (String × ConfigVal) :=
  [ ("@typescript-eslint/no-unused-vars", .arr [.str "error",
      .obj [ ("argsIgnorePattern", .str "^_")
           , ("varsIgnorePattern", .str "^_")
           , ("caughtErrorsIgnorePattern", .str "^_") ]])
  , ("@typescript-eslint/no-explicit-any", .str "warn")
  , ("@typescript-eslint/explicit-function-return-type", .str "off")
  , ("@typescript-eslint/explicit-module-boundary-types", .str "off")
  , ("@typescript-eslint/no-empty-interface", .str "off")
  , ("@typescript-eslint/no-non-null-assertion", .str "warn")
  , ("@typescript-eslint/consistent-type-imports", .arr [.str "error",
      .obj [ ("prefer", .str "type-imports")
           , ("fixStyle", .str "inline-type-imports") ]])
  , ("react/react-in-jsx-scope", .str "off")
  , ("react/prop-types", .str "off")
  , ("react/jsx-uses-react", .str "off")
  , ("react/jsx-uses-vars", .str "error")
  , ("react/jsx-no-target-blank", .str "error")
  , ("react/display-name", .str "off")
  , ("react/jsx-sort-props", .arr [.str "warn",
      .obj [ ("callbacksLast", .bool true)
           , ("shorthandFirst", .bool true)
           , ("noSortAlphabetically", .bool false)
           , ("reservedFirst", .bool true) ]])
  , ("react-hooks/rules-of-hooks", .str "error")
  , ("react-hooks/exhaustive-deps", .str "warn")
  , ("@next/next/no-html-link-for-pages", .str "error")
  , ("@next/next/no-img-element", .str "error")
  , ("@next/next/no-sync-scripts", .str "error")
  , ("@next/next/no-head-element", .str "error")
  , ("@next/next/no-unwanted-polyfillio", .str "error")
  , ("@next/next/no-page-custom-font", .str "error")
  , ("@next/next/no-duplicate-head", .str "error")
  , ("import/order", .arr [.str "error",
      .obj [ ("groups", .arr [ .str "builtin", .str "external"
                             , .str "internal"
                             , .arr [.str "parent", .str "sibling"]
                             , .str "index", .str "object", .str "type" ])
           , ("newlines-between", .str "always")
           , ("pathGroups", .arr
               [ .obj [ ("pattern", .str "react")
                      , ("group", .str "external")
                      , ("position", .str "before") ]
               , .obj [ ("pattern", .str "next/**")
                      , ("group", .str "external")
                      , ("position", .str "before") ]
               , .obj [ ("pattern", .str "@/**")
                      , ("group", .str "internal") ] ])
           , ("pathGroupsExcludedImportTypes", .arr [.str "react", .str "next"])
           , ("alphabetize", .obj [ ("order", .str "asc")
                                  , ("caseInsensitive", .bool true) ]) ]])
  , ("import/no-duplicates", .str "error")
  , ("import/no-unresolved", .str "error")
  , ("import/no-cycle", .str "warn")
  , ("import/newline-after-import", .str "error")
  , ("jsx-a11y/alt-text", .str "error")
  , ("jsx-a11y/anchor-is-valid", .str "error")
  , ("jsx-a11y/aria-props", .str "error")
  , ("jsx-a11y/aria-proptypes", .str "error")
  , ("jsx-a11y/aria-unsupported-elements", .str "error")
  , ("jsx-a11y/role-has-required-aria-props", .str "error")
  , ("jsx-a11y/role-supports-aria-props", .str "error")
  , ("no-console", .arr [.str "warn",
      .obj [("allow", .arr [.str "warn", .str "error"])]])
  , ("no-debugger", .str "error")
  , ("no-alert", .str "warn")
  , ("prefer-const", .str "error")
  , ("no-var", .str "error")
  , ("object-shorthand", .str "error")
  , ("no-nested-ternary", .str "warn")
  , ("no-unneeded-ternary", .str "error")
  , ("prefer-template", .str "error")
  , ("template-curly-spacing", .arr [.str "error", .str "never"])
  , ("arrow-body-style", .arr [.str "error", .str "as-needed"])
  , ("prettier/prettier", .arr [.str "error",
      .obj [ ("semi", .bool false)
           , ("singleQuote", .bool true)
           , ("tabWidth", .num 2)
           , ("trailingComma", .str "es5")
           , ("printWidth", .num 100)
           , ("bracketSpacing", .bool true)
           , ("arrowParens", .str "always")
           , ("endOfLine", .str "lf") ]]) ]

/-- The `ignores` list of the final configuration block, in source
order. -/
def eslintIgnores : List String :=
  [ "**/node_modules/**"
  , "**/.next/**"
  , "**/out/**"
  , "**/build/**"
  , "**/dist/**"
  , "**/public/**"
  , "**/.vercel/**"
  , "**/.turbo/**"
  , "**/coverage/**"
  , "**/*.config.js"
  , "**/*.config.mjs"
  , "**/*.config.ts"
  , "**/next-env.d.ts"
  , "**/*.test.ts"
  , "**/*.test.tsx"
  , "**/tests/**"
  , "**/__tests__/**" ]

/-- A path is excluded from linting when some `ignores` glob matches
it (ESLint flat-config ignore patterns are minimatch globs, matched
with dotfiles included). -/
def eslintIgnoresMatch (path : List Char) : Bool :=
  eslintIgnores.any fun pat => globMatch pat path

/-- Is the string one of the three ESLint severities? -/
def isSeverityString (s : String) : Bool :=
  s == "off" || s == "warn" || s == "error"

/-- Is a rules-map value a severity, or a list headed by a severity
followed by options? -/
def isSeverityAssignment : ConfigVal → Bool
  | .str s => isSeverityString s
  | .arr (.str s :: _) => isSeverityString s
  | _ => false

/-! ## JavaScript regular-expression semantics for the transform key

The single key of the Jest `transform` map is the regex
`^.+\.(ts|tsx)$` (written `'^.+\\.(ts|tsx)$'` in the TypeScript
source).  Its matching semantics is embedded through a small regex
language: `.` matches any character except a line terminator, `+` is
one-or-more, `\.` a literal dot, `(ts|tsx)` an alternation of string
literals, and `^`/`$` anchor the match to the whole path. -/

/-- Regular expressions: empty string, a literal character, `.`
(any non-line-terminator character), concatenation, alternation and
Kleene star. -/
inductive Regex
  | eps
  | chr (c : Char)
  | anyc
  | cat (r₁ r₂ : Regex)
  | alt (r₁ r₂ : Regex)
  | star (r : Regex)

/-- The matching relation of the regex language. -/
inductive RMatch : Regex → List Char → Prop
  | eps : RMatch .eps []
  | chr (c : Char) : RMatch (.chr c) [c]
  | anyc (c : Char) : isLineTerminator c = false → RMatch .anyc [c]
  | cat {r₁ r₂ : Regex} {s₁ s₂ : List Char} :
      RMatch r₁ s₁ → RMatch r₂ s₂ → RMatch (.cat r₁ r₂) (s₁ ++ s₂)
  | altL {r₁ r₂ : Regex} {s : List Char} :
      RMatch r₁ s → RMatch (.alt r₁ r₂) s
  | altR {r₁ r₂ : Regex} {s : List Char} :
      RMatch r₂ s → RMatch (.alt r₁ r₂) s
  | starNil {r : Regex} : RMatch (.star r) []
  | starCons {r : Regex} {s₁ s₂ : List Char} :
      RMatch r s₁ → RMatch (.star r) s₂ → RMatch (.star r) (s₁ ++ s₂)

/-- The regex matching a string literally. -/
def rstring : List Char → Regex
  | [] => .eps
  | c :: cs => .cat (.chr c) (rstring cs)

/-- Compiled form of the transform key `^.+\.(ts|tsx)$`: one-or-more
arbitrary (non-line-terminator) characters, a literal `.`, then `ts`
or `tsx`, spanning the whole path. -/
def transformKeyRegex : Regex :=
  .cat (.cat .anyc (.star .anyc))
    (.cat (.chr '.') (.alt (rstring "ts".toList) (rstring "tsx".toList)))

/-- A lower bound on the length of any string a regex matches. -/
def minLen : Regex → Nat
  | .eps => 0
  | .chr _ => 1
  | .anyc => 1
  | .cat r₁ r₂ => minLen r₁ + minLen r₂
  | .alt r₁ r₂ => min (minLen r₁) (minLen r₂)
  | .star _ => 0

theorem RMatch.minLen_le {r : Regex} {s : List Char}
    (h : RMatch r s) : minLen r ≤ s.length := by
  induction h with
  | eps => simp [minLen]
  | chr c => simp [minLen]
  | anyc c _ => simp [minLen]
  | cat _ _ ih₁ ih₂ => simp only [minLen, List.length_append]; omega
  | altL _ ih => exact le_trans (min_le_left _ _) ih
  | altR _ ih => exact le_trans (min_le_right _ _) ih
  | starNil => simp [minLen]
  | starCons _ _ _ _ => simp [minLen]

theorem rstring_self : ∀ (l : List Char), RMatch (rstring l) l
  | [] => .eps
  | c :: l => RMatch.cat (RMatch.chr c) (rstring_self l)

theorem star_anyc_of (s : List Char)
    (h : ∀ c ∈ s, isLineTerminator c = false) : RMatch (.star .anyc) s := by
  induction s with
  | nil => exact .starNil
  | cons c s ih =>
    exact RMatch.starCons (RMatch.anyc c (h c (List.mem_cons_self c s)))
      (ih fun x hx => h x (List.mem_cons_of_mem c hx))

/-- The transform key matches every path built from a nonempty stem
without line terminators and a `.ts` or `.tsx` extension. -/
theorem transformKey_matches (stem ext : List Char) (hne : stem ≠ [])
    (hLT : ∀ c ∈ stem, isLineTerminator c = false)
    (hext : ext = "ts".toList ∨ ext = "tsx".toList) :
    RMatch transformKeyRegex (stem ++ '.' :: ext) := by
  obtain ⟨c, stem', rfl⟩ : ∃ c s', stem = c :: s' := by
    cases stem with
    | nil => exact absurd rfl hne
    | cons c s' => exact ⟨c, s', rfl⟩
  have h1 : RMatch (.cat .anyc (.star .anyc)) (c :: stem') :=
    RMatch.cat (RMatch.anyc c (hLT c (List.mem_cons_self c stem')))
      (star_anyc_of stem' fun x hx => hLT x (List.mem_cons_of_mem c hx))
  have h2 : RMatch (.cat (.chr '.')
      (.alt (rstring "ts".toList) (rstring "tsx".toList))) ('.' :: ext) := by
    rcases hext with rfl | rfl
    · exact RMatch.cat (RMatch.chr '.') (RMatch.altL (rstring_self _))
    · exact RMatch.cat (RMatch.chr '.') (RMatch.altR (rstring_self _))
  exact RMatch.cat h1 h2

/-- The transform key rejects the bare file name `.ts`: the `.+` part
needs at least one character before the dot. -/
theorem transformKey_reject_bare :
    ¬ RMatch transformKeyRegex (".ts".toList) := by
  intro h
  have hlen := h.minLen_le
  have h4 : minLen transformKeyRegex = 4 := by decide
  have h3 : (".ts".toList).length = 3 := by decide
  omega

/-! ## Jest `moduleNameMapper` semantics -/

/-- Semantics of the single `moduleNameMapper` entry
`'^@/(.*)$': '<rootDir>/src/$1'`: the anchored regex `^@/(.*)$`
matches exactly the specifiers whose first two characters are `@/`
and whose remainder contains no line terminator (`.` does not match
line terminators); on a match the replacement substitutes the
captured remainder for `$1`; an unmatched specifier is left
unrewritten (`none`). -/
def moduleNameMapperApply (spec : List Char) : Option (List Char) :=
  if spec.take 2 = ['@', '/'] then
    if (spec.drop 2).all (fun c => !(isLineTerminator c)) then
      some ("<rootDir>/src/".toList ++ spec.drop 2)
    else none
  else none

/-! ## The claims -/

/-- Claim C1 is false as stated: counting the rule-set sources composed
into the exported ESLint config (the base recommended configs plus each
entry of the plugins map) does not yield twelve. -/
theorem spec_C1_cex : ¬ ruleSetSourceCount = 12 := by decide

/-- Claim C1 (amended): counting every distinct rule-set source composed
into the exported ESLint config (the base recommended configs plus each
entry of the plugins map) yields eight. -/
theorem spec_C1 : ruleSetSourceCount = 8 := by decide

/-- Claim C2: every file path matched by some pattern in the config's
`testMatch` list lies under `<rootDir>/src/`. -/
theorem spec_C2 (path : List Char) (h : jestTestMatches path = true) :
    "<rootDir>/src/".toList <+: path :=
  jestTestMatches_src path h

theorem spec_C2_witness :
    jestTestMatches "<rootDir>/src/sum.test.ts".toList = true ∧
      "<rootDir>/src/".toList <+: "<rootDir>/src/sum.test.ts".toList := by
  have h : jestTestMatches "<rootDir>/src/sum.test.ts".toList = true := by decide
  exact ⟨h, spec_C2 _ h⟩

/-- Claim C3: the `testPathIgnorePatterns` list of the Jest config
contains the entry `<rootDir>/tests/` (the standalone-scripts
directory). -/
theorem spec_C3 :
    "<rootDir>/tests/" ∈ customJestConfig.testPathIgnorePatterns := by
  decide

/-- Claim C4: in the ESLint config's rules map the entry
`react/react-in-jsx-scope` is assigned the severity `off`. -/
theorem spec_C4 :
    eslintRules.find? (fun e => e.1 == "react/react-in-jsx-scope") =
      some ("react/react-in-jsx-scope", ConfigVal.str "off") := rfl

/-- Claim C5 is false as stated: the file name `.ts` ends in `.ts`, yet
the transform key `^.+\.(ts|tsx)$` does not match it (the `.+` part
needs a nonempty stem). -/
theorem spec_C5_cex :
    ".ts".toList <:+ ".ts".toList ∧
      ¬ RMatch transformKeyRegex (".ts".toList) :=
  ⟨⟨[], rfl⟩, transformKey_reject_bare⟩

/-- Claim C5 (amended): every file name formed of a nonempty stem
without line terminators followed by `.ts` or `.tsx` is matched by the
transform key regex `^.+\.(ts|tsx)$`, and that key is assigned the
transformer `ts-jest`. -/
theorem spec_C5 (stem ext : List Char) (hne : stem ≠ [])
    (hLT : ∀ c ∈ stem, isLineTerminator c = false)
    (hext : ext = "ts".toList ∨ ext = "tsx".toList) :
    RMatch transformKeyRegex (stem ++ '.' :: ext) ∧
      ("^.+\\.(ts|tsx)$", "ts-jest") ∈ customJestConfig.transform :=
  ⟨transformKey_matches stem ext hne hLT hext, by decide⟩

theorem spec_C5_witness :
    RMatch transformKeyRegex ("Button".toList ++ '.' :: "tsx".toList) ∧
      ("^.+\\.(ts|tsx)$", "ts-jest") ∈ customJestConfig.transform :=
  spec_C5 "Button".toList "tsx".toList (by decide) (by decide) (Or.inr rfl)

/-- Claim C6: the Jest config object's `testEnvironment` field equals
`jest-environment-jsdom` and its `setupFilesAfterEnv` field is exactly
the one-element list `[<rootDir>/jest.setup.ts]`. -/
theorem spec_C6 :
    customJestConfig.testEnvironment = "jest-environment-jsdom" ∧
      customJestConfig.setupFilesAfterEnv = ["<rootDir>/jest.setup.ts"] :=
  ⟨rfl, rfl⟩

/-- Claim C7: every entry of the ESLint config's rules map is assigned
a severity (`off`, `warn` or `error`), directly or as the head of an
options list. -/
theorem spec_C7 :
    eslintRules.all (fun e => isSeverityAssignment e.2) = true := by
  decide

/-- Claim C8 is false as stated: the path
`<rootDir>/src/<rootDir>/tests/sum.test.ts` matches a `testMatch`
pattern and is also matched (as an unanchored regex) by the ignore
entry `<rootDir>/tests/`. -/
theorem spec_C8_cex :
    jestTestMatches "<rootDir>/src/<rootDir>/tests/sum.test.ts".toList = true ∧
      "<rootDir>/tests/" ∈ customJestConfig.testPathIgnorePatterns ∧
      ignoreMatches "<rootDir>/tests/"
        "<rootDir>/src/<rootDir>/tests/sum.test.ts".toList := by
  refine ⟨by decide, by decide,
    ⟨"<rootDir>/src/".toList, "<rootDir>/tests/".toList, "sum.test.ts".toList,
      by decide, by decide⟩⟩

/-- Claim C8 (amended): for every file path in which `<rootDir>/`
occurs only as the leading prefix, no path both matches some
`testMatch` pattern and is matched by some `testPathIgnorePatterns`
regex. -/
theorem spec_C8 (path : List Char)
    (hm : jestTestMatches path = true)
    (hfree : containsSub "<rootDir>/".toList path.tail = false) :
    ∀ pat ∈ customJestConfig.testPathIgnorePatterns, ¬ ignoreMatches pat path :=
  testMatch_ignore_disjoint path hm hfree

theorem spec_C8_witness :
    jestTestMatches "<rootDir>/src/sum.test.ts".toList = true ∧
      containsSub "<rootDir>/".toList ("<rootDir>/src/sum.test.ts".toList).tail = false ∧
      ∀ pat ∈ customJestConfig.testPathIgnorePatterns,
        ¬ ignoreMatches pat "<rootDir>/src/sum.test.ts".toList := by
  have h1 : jestTestMatches "<rootDir>/src/sum.test.ts".toList = true := by decide
  have h2 : containsSub "<rootDir>/".toList
      ("<rootDir>/src/sum.test.ts".toList).tail = false := by decide
  exact ⟨h1, h2, spec_C8 _ h1 h2⟩

/-- Claim C9 is false as stated: the specifier `@/a<newline>b` begins
with `@/` but is not rewritten, because `.` in the regex `^@/(.*)$`
does not match a line terminator. -/
theorem spec_C9_cex :
    moduleNameMapperApply ("@/".toList ++ "a\nb".toList) ≠
      some ("<rootDir>/src/".toList ++ "a\nb".toList) := by
  decide

/-- Claim C9 (amended): for every string `s` without line terminators
the module-name mapping sends `@/` ++ s to `<rootDir>/src/` ++ s, and
it rewrites no specifier that does not begin with `@/`. -/
theorem spec_C9 :
    (∀ s : List Char, s.all (fun c => !(isLineTerminator c)) = true →
      moduleNameMapperApply ("@/".toList ++ s) =
        some ("<rootDir>/src/".toList ++ s)) ∧
    (∀ spec : List Char, ¬ "@/".toList <+: spec →
      moduleNameMapperApply spec = none) := by
  constructor
  · intro s hs
    show moduleNameMapperApply ('@' :: '/' :: s) = _
    simp [moduleNameMapperApply, hs]
  · intro spec h
    match spec with
    | [] => rfl
    | [c] => simp [moduleNameMapperApply]
    | c :: c2 :: spec'' =>
      by_cases hc : c = '@' ∧ c2 = '/'
      · obtain ⟨rfl, rfl⟩ := hc
        exact absurd ⟨spec'', rfl⟩ h
      · have hne : ¬ List.take 2 (c :: c2 :: spec'') = ['@', '/'] := by
          intro he
          simp only [List.take_succ_cons, List.take_zero] at he
          injection he with h1 h2
          injection h2 with h2 _
          exact hc ⟨h1, h2⟩
        simp only [moduleNameMapperApply, if_neg hne]

theorem spec_C9_witness :
    moduleNameMapperApply ("@/".toList ++ "components/Button".toList) =
        some ("<rootDir>/src/".toList ++ "components/Button".toList) ∧
      moduleNameMapperApply "react".toList = none :=
  ⟨spec_C9.1 _ (by decide), spec_C9.2 _ (by decide)⟩

/-- Claim C10: every path ending in `.config.js`, `.config.mjs` or
`.config.ts`, every path ending in `.test.ts` or `.test.tsx`, and
every path containing a `tests` or `__tests__` directory segment
matches some pattern of the ESLint `ignores` list. -/
theorem spec_C10 (path : List Char)
    (h : (∃ s, path = s ++ ".config.js".toList ∨
            path = s ++ ".config.mjs".toList ∨
            path = s ++ ".config.ts".toList ∨
            path = s ++ ".test.ts".toList ∨
            path = s ++ ".test.tsx".toList) ∨
         (∃ a b, (path = a ++ "tests/".toList ++ b ∨
              path = a ++ "__tests__/".toList ++ b) ∧
            (a = [] ∨ ∃ a', a = a' ++ ['/']))) :
    eslintIgnoresMatch path = true := by
  rcases h with ⟨s, h | h | h | h | h⟩ | ⟨a, b, h | h, _⟩
  · subst h
    refine List.any_eq_true.mpr ⟨"**/*.config.js", by decide, ?_⟩
    exact globMatch_of_tmatch "**/*.config.js"
      ([.globstarSlash, .star] ++ litToks ".config.js".toList) rfl rfl _
      (glob_ext_match s ".config.js".toList)
  · subst h
    refine List.any_eq_true.mpr ⟨"**/*.config.mjs", by decide, ?_⟩
    exact globMatch_of_tmatch "**/*.config.mjs"
      ([.globstarSlash, .star] ++ litToks ".config.mjs".toList) rfl rfl _
      (glob_ext_match s ".config.mjs".toList)
  · subst h
    refine List.any_eq_true.mpr ⟨"**/*.config.ts", by decide, ?_⟩
    exact globMatch_of_tmatch "**/*.config.ts"
      ([.globstarSlash, .star] ++ litToks ".config.ts".toList) rfl rfl _
      (glob_ext_match s ".config.ts".toList)
  · subst h
    refine List.any_eq_true.mpr ⟨"**/*.test.ts", by decide, ?_⟩
    exact globMatch_of_tmatch "**/*.test.ts"
      ([.globstarSlash, .star] ++ litToks ".test.ts".toList) rfl rfl _
      (glob_ext_match s ".test.ts".toList)
  · subst h
    refine List.any_eq_true.mpr ⟨"**/*.test.tsx", by decide, ?_⟩
    exact globMatch_of_tmatch "**/*.test.tsx"
      ([.globstarSlash, .star] ++ litToks ".test.tsx".toList) rfl rfl _
      (glob_ext_match s ".test.tsx".toList)
  · subst h
    refine List.any_eq_true.mpr ⟨"**/tests/**", by decide, ?_⟩
    have hm := glob_segment_match a "tests/".toList b
    rw [← List.append_assoc] at hm
    exact globMatch_of_tmatch "**/tests/**"
      (.globstarSlash :: (litToks "tests/".toList ++ [GTok.globstar])) rfl rfl _ hm
  · subst h
    refine List.any_eq_true.mpr ⟨"**/__tests__/**", by decide, ?_⟩
    have hm := glob_segment_match a "__tests__/".toList b
    rw [← List.append_assoc] at hm
    exact globMatch_of_tmatch "**/__tests__/**"
      (.globstarSlash :: (litToks "__tests__/".toList ++ [GTok.globstar])) rfl rfl _ hm

theorem spec_C10_witness :
    ((∃ s, "jest.config.ts".toList = s ++ ".config.js".toList ∨
        "jest.config.ts".toList = s ++ ".config.mjs".toList ∨
        "jest.config.ts".toList = s ++ ".config.ts".toList ∨
        "jest.config.ts".toList = s ++ ".test.ts".toList ∨
        "jest.config.ts".toList = s ++ ".test.tsx".toList) ∨
      (∃ a b, ("jest.config.ts".toList = a ++ "tests/".toList ++ b ∨
          "jest.config.ts".toList = a ++ "__tests__/".toList ++ b) ∧
        (a = [] ∨ ∃ a', a = a' ++ ['/']))) ∧
      eslintIgnoresMatch "jest.config.ts".toList = true := by
  have h : (∃ s, "jest.config.ts".toList = s ++ ".config.js".toList ∨
      "jest.config.ts".toList = s ++ ".config.mjs".toList ∨
      "jest.config.ts".toList = s ++ ".config.ts".toList ∨
      "jest.config.ts".toList = s ++ ".test.ts".toList ∨
      "jest.config.ts".toList = s ++ ".test.tsx".toList) ∨
      (∃ a b, ("jest.config.ts".toList = a ++ "tests/".toList ++ b ∨
          "jest.config.ts".toList = a ++ "__tests__/".toList ++ b) ∧
        (a = [] ∨ ∃ a', a = a' ++ ['/'])) :=
    Or.inl ⟨"jest".toList, Or.inr (Or.inr (Or.inl (by decide)))⟩
  exact ⟨h, spec_C10 _ h⟩
